import Mathlib

/-!
Shallow embedding of the core of `flatmap-maker`:
`src/mapmaker/flatmap/feature.py` (Feature, FeatureMap) and
`src/mapmaker/sources/powerpoint/__init__.py` (PowerpointLayer shape-tree
reduction), together with theorems settling the specification claims.

Python dictionaries are modelled as insertion-ordered association lists,
geometry values as opaque tagged records (the geometric predicate
`container.geometry.contains(candidate.geometry.centroid)` supplied by the
external shapely library is an explicit boolean-valued parameter), and the
side effects of the code (diagnostic logging, property-dict mutation,
sequential feature-id assignment) as explicit state threaded through the
definitions.
-/

namespace FlatmapMaker

/-- A value stored in a Python property dictionary: `None`, a string, a
boolean or an integer. -/
inductive PValue where
  | none
  | str (s : String)
  | bool (b : Bool)
  | int (n : Int)
deriving DecidableEq, Repr

/-- Python truthiness of a property value, as used by
`properties.get('exclude', False)` appearing in a condition. -/
def PValue.truthy : PValue → Bool
  | PValue.none => false
  | PValue.str s => s ≠ ""
  | PValue.bool b => b
  | PValue.int n => n ≠ 0

/-- A Python `dict` with string keys, as an insertion-ordered association
list with at most one entry per key. -/
abbrev PDict := List (String × PValue)

/-- Python `k in d`: key membership. -/
def PDict.hasKey (d : PDict) (k : String) : Bool :=
  d.any (fun p => p.1 = k)

/-- Python `d.get(k)` returning `None` when the key is absent, modelled as
an `Option`. -/
def PDict.get? (d : PDict) (k : String) : Option PValue :=
  (d.find? (fun p => p.1 = k)).map (fun p => p.2)

/-- Python `d.get(k, dflt)`. -/
def PDict.getD (d : PDict) (k : String) (dflt : PValue) : PValue :=
  (d.get? k).getD dflt

/-- Python `d[k] = v`: replace the value of an existing key in place,
otherwise append a new entry (insertion order preserved). -/
def PDict.insert (d : PDict) (k : String) (v : PValue) : PDict :=
  if d.hasKey k then d.map (fun p => if p.1 = k then (k, v) else p)
  else d ++ [(k, v)]

/-- State effect of Python `d.pop(k)`. -/
def PDict.erase (d : PDict) (k : String) : PDict :=
  d.filter (fun p => p.1 ≠ k)

/-- An opaque geometry value from the external geometry library (shapely).
Only an identifying tag and the `geom_type` string (recorded into a
Feature's properties at construction) are modelled; the containment
predicate is an explicit parameter wherever the code uses it. -/
structure Geom where
  gid : Nat
  geom_type : String
deriving DecidableEq, Repr

/-- `Feature` from src/mapmaker/flatmap/feature.py: numeric feature id,
geometry, property dictionary and the has-children flag. -/
structure Feature where
  feature_id : Nat
  geometry : Geom
  properties : PDict
  has_children : Bool
deriving DecidableEq, Repr

/-- `Feature.__init__`: copies the caller's properties and records
`featureId` (the numeric id) and `geometry` (the geometry kind) in them. -/
def Feature.mkFeature (fid : Nat) (g : Geom) (props : PDict)
    (hasChildren : Bool) : Feature :=
  { feature_id := fid
    geometry := g
    properties :=
      (props.insert "featureId" (PValue.int (Int.ofNat fid))).insert
        "geometry" (PValue.str g.geom_type)
    has_children := hasChildren }

/-- `Feature.id`: `properties.get('id')`. -/
def Feature.id (f : Feature) : PValue :=
  f.properties.getD "id" PValue.none

/-- `Feature.models`: `properties.get('models')`. -/
def Feature.models (f : Feature) : PValue :=
  f.properties.getD "models" PValue.none

/-- `Feature.get_property(property, default)`. -/
def Feature.get_property (f : Feature) (k : String) (dflt : PValue) : PValue :=
  f.properties.getD k dflt

/-- `Feature.has_property`: `properties.get(property, '') != ''`. -/
def Feature.has_property (f : Feature) (k : String) : Bool :=
  f.properties.getD k (PValue.str "") ≠ PValue.str ""

/-- State effect of `Feature.del_property`. -/
def Feature.del_property (f : Feature) (k : String) : Feature :=
  { f with properties := f.properties.erase k }

/-- `Feature.set_property`: deletes the key when the value is `None`,
otherwise stores the value. -/
def Feature.set_property (f : Feature) (k : String) (v : PValue) : Feature :=
  if v = PValue.none then f.del_property k
  else { f with properties := f.properties.insert k v }

/-- `Feature.visible`: `not self.get_property('invisible')`. -/
def Feature.visible (f : Feature) : Bool :=
  !(f.get_property "invisible" PValue.none).truthy

/-- A Python `defaultdict(list)` keyed by property values, holding lists of
Features. -/
abbrev FeatureListMap := List (PValue × List Feature)

/-- `m.get(k, [])` on a feature multimap. -/
def FeatureListMap.getList (m : FeatureListMap) (k : PValue) : List Feature :=
  ((m.find? (fun p => p.1 = k)).map (fun p => p.2)).getD []

/-- `m[k].append(f)` on a `defaultdict(list)`: appends to the existing list,
creating an empty one first when the key is absent. -/
def FeatureListMap.appendAt (m : FeatureListMap) (k : PValue) (f : Feature) :
    FeatureListMap :=
  if m.any (fun p => p.1 = k) then
    m.map (fun p => if p.1 = k then (p.1, p.2 ++ [f]) else p)
  else m ++ [(k, [f])]

/-- Lookup in a plain Python dict keyed by property values. -/
def idMapGet (m : List (PValue × Feature)) (k : PValue) : Option Feature :=
  (m.find? (fun p => p.1 = k)).map (fun p => p.2)

/-- `d[k] = f` on a plain Python dict keyed by property values. -/
def idMapInsert (m : List (PValue × Feature)) (k : PValue) (f : Feature) :
    List (PValue × Feature) :=
  if m.any (fun p => p.1 = k) then
    m.map (fun p => if p.1 = k then (k, f) else p)
  else m ++ [(k, f)]

/-- `FeatureMap` from src/mapmaker/flatmap/feature.py: the class-, id- and
model-keyed indexes plus the list de-duplicating "unknown anatomy"
diagnostics. -/
structure FeatureMap where
  class_to_features : FeatureListMap
  id_to_feature : List (PValue × Feature)
  model_to_features : FeatureListMap
  unknown_anatomy : List (PValue × List PValue)
deriving Repr

/-- `FeatureMap.__init__`. -/
def FeatureMap.empty : FeatureMap := ⟨[], [], [], []⟩

/-- `FeatureMap.add_feature`. -/
def FeatureMap.add_feature (m : FeatureMap) (f : Feature) : FeatureMap :=
  let m1 := if f.id ≠ PValue.none then
      { m with id_to_feature := idMapInsert m.id_to_feature f.id f }
    else m
  let m2 := if f.has_property "class" then
      { m1 with class_to_features :=
          m1.class_to_features.appendAt (f.get_property "class" PValue.none) f }
    else m1
  if f.models ≠ PValue.none then
    { m2 with model_to_features := m2.model_to_features.appendAt f.models f }
  else m2

/-- `FeatureMap.duplicate_id`. -/
def FeatureMap.duplicate_id (m : FeatureMap) (id : PValue) : Bool :=
  (idMapGet m.id_to_feature id).isSome

/-- `FeatureMap.features`: the id-keyed entry as a singleton when present,
otherwise the class-keyed list (empty when absent). -/
def FeatureMap.features (m : FeatureMap) (id : PValue) : List Feature :=
  match idMapGet m.id_to_feature id with
  | Option.some f => [f]
  | Option.none => m.class_to_features.getList id

/-- The nested double loop of `find_features_by_anatomical_id`: for every
layer feature (container), for every candidate feature, append the candidate
when `layer_feature.geometry.contains(feature.geometry.centroid)`; the
predicate `cc container candidate` stands for that external geometric test. -/
def includedFeatures (cc : Geom → Geom → Bool)
    (layerFeatures features : List Feature) : List Feature :=
  match layerFeatures with
  | [] => []
  | lf :: rest =>
      features.filter (fun f => cc lf.geometry f.geometry)
        ++ includedFeatures cc rest features

/-- The `for anatomical_layer in anatomical_layers` loop of
`find_features_by_anatomical_id`: keeps the most recent layer's match list,
breaking as soon as one has exactly one element. -/
def layerLoop (cc : Geom → Geom → Bool) (m : FeatureMap)
    (features : List Feature) : List PValue → List Feature → List Feature
  | [], acc => acc
  | layer :: rest, _ =>
      let included :=
        includedFeatures cc (m.model_to_features.getList layer) features
      if included.length = 1 then included
      else layerLoop cc m features rest included

/-- Result of `find_features_by_anatomical_id`: the returned feature list,
the updated `FeatureMap` state and the number of `log.error` diagnostics
emitted by the call (observational instrumentation of the logging side
effect). -/
structure ResolveResult where
  features : List Feature
  map : FeatureMap
  diagnostics : Nat
deriving Repr

/-- `FeatureMap.find_features_by_anatomical_id`. -/
def FeatureMap.find_features_by_anatomical_id (cc : Geom → Geom → Bool)
    (m : FeatureMap) (anatomical_id : PValue)
    (anatomical_layers : List PValue) : ResolveResult :=
  let anatomical_features :=
    if anatomical_layers.length = 0 then
      m.model_to_features.getList anatomical_id
    else
      layerLoop cc m (m.model_to_features.getList anatomical_id)
        anatomical_layers []
  if anatomical_features.length = 0 then
    if (anatomical_id, anatomical_layers) ∈ m.unknown_anatomy then
      ⟨anatomical_features, m, 0⟩
    else
      ⟨anatomical_features,
       { m with unknown_anatomy :=
           m.unknown_anatomy ++ [(anatomical_id, anatomical_layers)] },
       1⟩
  else ⟨anatomical_features, m, 0⟩

/-- A leaf shape of a slide: a geometry plus its markup property dict. -/
structure PShape where
  geometry : Geom
  properties : PDict

/-- A `TreeList` element from src/mapmaker/sources/powerpoint/__init__.py:
either a single shape or a nested `TreeList` of elements (a group). -/
inductive STree where
  | leaf (shape : PShape)
  | node (children : List STree)

/-- Modelled from the spec: `FEATURES_TILE_LAYER` is a constant imported
from `mapmaker.flatmap.layers`, which is not under src/; the claims depend
only on the `tile-layer` key becoming present, never on its value. -/
def FEATURES_TILE_LAYER : PValue := PValue.str "features"

/-- Modelled from the spec: `FlatMap.new_feature` (not under src/)
constructs a Feature from geometry and properties, assigning the next
process-local sequential numeric id ("numeric identifier, assigned once at
creation, unique within a build"); the id counter is explicit state. -/
def new_feature (st : Nat) (g : Geom) (props : PDict) : Feature × Nat :=
  (Feature.mkFeature st g props false, st + 1)

/-- The leaf part of the `__process_shape_list` loop body before the drop
checks: `check_markup_errors` (the external markup validator from the
`MapSource` base class, not under src/, supplied as the parameter `cm`)
followed by defaulting the `tile-layer` property when absent. -/
def leafProperties (cm : PDict → PDict) (props : PDict) : PDict :=
  let p := cm props
  if p.hasKey "tile-layer" then p else p.insert "tile-layer" FEATURES_TILE_LAYER

/-- The drop conditions tested on a leaf's (validated, defaulted)
properties: an `error` key, an `invisible` key, a `path` key, or a truthy
`exclude` value. -/
def dropCondition (p : PDict) : Bool :=
  p.hasKey "error" || p.hasKey "invisible" || p.hasKey "path"
    || (p.getD "exclude" (PValue.bool false)).truthy

/-- Result of the tree reduction: the Feature list built by
`__process_shape_list`, the shape tree with its property dicts as mutated
by processing, the feature-id counter, and — observational instrumentation
only — the list of every argument passed to the group-aggregation step
(`add_features('Group', ...)`), in call order. -/
structure ProcessResult where
  features : List Feature
  shapes : List STree
  counter : Nat
  offers : List (List Feature)

mutual

/-- The `for shape in shapes[1:]` loop body of
`PowerpointLayer.__process_shape_list`, element by element: a nested
`TreeList` is reduced recursively and its feature list handed to the
group-aggregation step `ag` (modelling `MapLayer.add_features`, not under
src/), whose synthesized group Feature — when there is one — is appended;
a leaf is validated, `tile-layer`-defaulted, dropped when a drop condition
holds, and otherwise turned into a new Feature that is appended. -/
def processItems (cm : PDict → PDict)
    (ag : List Feature → Nat → Option Feature × Nat) :
    List STree → Nat → ProcessResult
  | [], st => ⟨[], [], st, []⟩
  | STree.node children :: rest, st =>
      let g := processShapeList cm ag children st
      let gp := ag g.features g.counter
      let r := processItems cm ag rest gp.2
      match gp.1 with
      | Option.some gf =>
          ⟨gf :: r.features, STree.node g.shapes :: r.shapes, r.counter,
           g.offers ++ [g.features] ++ r.offers⟩
      | Option.none =>
          ⟨r.features, STree.node g.shapes :: r.shapes, r.counter,
           g.offers ++ [g.features] ++ r.offers⟩
  | STree.leaf s :: rest, st =>
      let p := leafProperties cm s.properties
      if dropCondition p then
        let r := processItems cm ag rest st
        ⟨r.features, STree.leaf ⟨s.geometry, p⟩ :: r.shapes, r.counter,
         r.offers⟩
      else
        let nf := new_feature st s.geometry p
        let r := processItems cm ag rest nf.2
        ⟨nf.1 :: r.features, STree.leaf ⟨s.geometry, p⟩ :: r.shapes,
         r.counter, r.offers⟩

/-- `PowerpointLayer.__process_shape_list`: iterates `shapes[1:]`, so the
element at index 0 of every shape list — the top-level slide list and every
nested group list alike — is passed through untouched. -/
def processShapeList (cm : PDict → PDict)
    (ag : List Feature → Nat → Option Feature × Nat) :
    List STree → Nat → ProcessResult
  | [], st => ⟨[], [], st, []⟩
  | s0 :: rest, st =>
      let r := processItems cm ag rest st
      ⟨r.features, s0 :: r.shapes, r.counter, r.offers⟩

end

/-- Concrete container geometry used by concrete-instance theorems. -/
def cgC1 : Geom := ⟨1, "Polygon"⟩

/-- A second concrete container geometry. -/
def cgC2 : Geom := ⟨2, "Polygon"⟩

/-- Concrete candidate geometry. -/
def cgX : Geom := ⟨3, "Polygon"⟩

/-- Concrete containment predicate standing for shapely's
`container.contains(candidate.centroid)`: both containers `cgC1` and `cgC2`
contain the centroid of `cgX`. -/
def cc0 : Geom → Geom → Bool :=
  fun a b => (a.gid == 1 || a.gid == 2) && b.gid == 3

/-- Concrete candidate Feature carrying anatomical model identifier `X`. -/
def fX : Feature := Feature.mkFeature 10 cgX [("models", PValue.str "X")] false

/-- Concrete container Feature of layer `L`. -/
def fL1 : Feature := Feature.mkFeature 11 cgC1 [("models", PValue.str "L")] false

/-- A second concrete container Feature of layer `L`. -/
def fL2 : Feature := Feature.mkFeature 12 cgC2 [("models", PValue.str "L")] false

/-- Concrete FeatureMap: one candidate for `X`, two containers in layer `L`,
nothing in layer `M`. -/
def m0 : FeatureMap :=
  ((FeatureMap.empty.add_feature fX).add_feature fL1).add_feature fL2

/-- Stated from the words of claim C1, for comparison with the code: the
per-layer match list as the claim describes it — the candidate Features
whose geometry centroid is contained in some container Feature of the
layer. -/
def claimMatchList (cc : Geom → Geom → Bool)
    (layerFeatures features : List Feature) : List Feature :=
  features.filter (fun f => layerFeatures.any (fun lf => cc lf.geometry f.geometry))

/-- The match list of the first layer whose match list has exactly one
element; when no layer's has exactly one, the last layer's. -/
def firstUniqueOrLast : List (List Feature) → List Feature
  | [] => []
  | [l] => l
  | l :: l2 :: rest => if l.length = 1 then l else firstUniqueOrLast (l2 :: rest)

/-- Stated from the words of claim C1, for comparison with the code: the
whole resolution as the claim describes it. -/
def claimResolve (cc : Geom → Geom → Bool) (m : FeatureMap) (aid : PValue)
    (layers : List PValue) : List Feature :=
  if layers.length = 0 then m.model_to_features.getList aid
  else
    firstUniqueOrLast (layers.map (fun ly =>
      claimMatchList cc (m.model_to_features.getList ly)
        (m.model_to_features.getList aid)))

/-- A concrete Feature with external id `a`, for the claim C5 witness. -/
def fID : Feature := Feature.mkFeature 20 cgX [("id", PValue.str "a")] false

/-- Group-aggregation step that never synthesizes a group Feature
(one admissible behavior of the spec-modelled `add_features`). -/
def agNone : List Feature → Nat → Option Feature × Nat :=
  fun _ st => (Option.none, st)

/-- Group-aggregation step that synthesizes a group Feature exactly for an
empty child list — admissible for non-empty lists, but violating the
spec-modelled behavior on the empty list; used to observe that the code
offers empty child lists to the aggregation step. -/
def agJunk : List Feature → Nat → Option Feature × Nat :=
  fun fs st =>
    if fs.isEmpty then (Option.some (Feature.mkFeature st ⟨99, "Group"⟩ [] true), st + 1)
    else (Option.none, st)

/-- A leaf shape with no markup properties (passes every drop check). -/
def plainLeaf (n : Nat) : STree := STree.leaf ⟨⟨n, "Polygon"⟩, []⟩

/-- A leaf shape marked invisible (dropped), with no tile-layer property. -/
def invisibleLeaf : PShape := ⟨⟨5, "Polygon"⟩, [("invisible", PValue.bool true)]⟩

/-- A shape list whose single group element has no children after the
skipped first element, so its reduced child feature list is empty. -/
def groupTree : List STree := [plainLeaf 9, STree.node [plainLeaf 8]]

/-- The feature list the amended claim C7 predicts for a run of passing
leaves: one Feature per leaf, in input order, with sequential ids. -/
def expectedLeafFeatures (cm : PDict → PDict) : List PShape → Nat → List Feature
  | [], _ => []
  | s :: rest, st =>
      Feature.mkFeature st s.geometry (leafProperties cm s.properties) false
        :: expectedLeafFeatures cm rest (st + 1)

section AssocHelpers

variable {κ ν : Type} [DecidableEq κ]

/-- Replacing the value stored at key `k` leaves lookups of other keys
unchanged. -/
lemma assoc_find?_map_replace_ne (t : List (κ × ν)) (k k2 : κ) (v : ν) (h : k2 ≠ k) :
    ((t.map (fun p => if p.1 = k then (k, v) else p)).find? (fun p => p.1 = k2))
      = t.find? (fun p => p.1 = k2) := by
  induction t with
  | nil => rfl
  | cons a t ih =>
    simp only [List.map_cons]
    by_cases ha : a.1 = k
    · rw [if_pos ha]
      rw [List.find?_cons_of_neg _ (by simp; exact fun hk => h hk.symm)]
      rw [List.find?_cons_of_neg _ (by simp [ha]; exact fun hk => h hk.symm)]
      exact ih
    · rw [if_neg ha]
      by_cases ha2 : a.1 = k2
      · rw [List.find?_cons_of_pos _ (by simp [ha2]),
           List.find?_cons_of_pos _ (by simp [ha2])]
      · rw [List.find?_cons_of_neg _ (by simp [ha2]),
           List.find?_cons_of_neg _ (by simp [ha2])]
        exact ih

/-- A list none of whose keys is `k` has no entry for `k`. -/
lemma assoc_find?_none_of_not_any (l : List (κ × ν)) (k : κ)
    (hany : ¬(l.any (fun p => p.1 = k) = true)) :
    l.find? (fun p => p.1 = k) = Option.none := by
  rw [List.find?_eq_none]
  intro x hx
  simp only [List.any_eq_true] at hany
  simp only [decide_eq_true_eq]
  exact fun hk => hany ⟨x, hx, by simp [hk]⟩

/-- Looking up key `k` right after the replace-or-append update at `k`
finds the new entry. -/
lemma assoc_find?_update_self (l : List (κ × ν)) (k : κ) (v : ν) :
    ((if l.any (fun p => p.1 = k) then
        l.map (fun p => if p.1 = k then (k, v) else p)
      else l ++ [(k, v)]).find? (fun p => p.1 = k)) = Option.some (k, v) := by
  by_cases hany : l.any (fun p => p.1 = k)
  · rw [if_pos hany]
    induction l with
    | nil => simp at hany
    | cons a t ih =>
      simp only [List.map_cons]
      by_cases ha : a.1 = k
      · rw [if_pos ha]
        exact List.find?_cons_of_pos _ (by simp)
      · rw [if_neg ha]
        rw [List.find?_cons_of_neg _ (by simp [ha])]
        apply ih
        rw [List.any_cons] at hany
        simpa [ha] using hany
  · rw [if_neg hany]
    rw [List.find?_append, assoc_find?_none_of_not_any l k hany]
    simp

/-- The replace-or-append update at key `k` leaves lookups of other keys
unchanged. -/
lemma assoc_find?_update_ne (l : List (κ × ν)) (k k2 : κ) (v : ν) (h : k2 ≠ k) :
    ((if l.any (fun p => p.1 = k) then
        l.map (fun p => if p.1 = k then (k, v) else p)
      else l ++ [(k, v)]).find? (fun p => p.1 = k2)) = l.find? (fun p => p.1 = k2) := by
  by_cases hany : l.any (fun p => p.1 = k)
  · rw [if_pos hany]
    exact assoc_find?_map_replace_ne l k k2 v h
  · rw [if_neg hany]
    rw [List.find?_append]
    have hk2 : ¬(k = k2) := fun hk => h hk.symm
    simp [hk2]

end AssocHelpers

/-- Inserting at key `k` makes `get?` at `k` return the stored value. -/
lemma PDict.get?_insert_self (d : PDict) (k : String) (v : PValue) :
    (d.insert k v).get? k = Option.some v := by
  unfold PDict.insert PDict.get? PDict.hasKey
  rw [assoc_find?_update_self]
  rfl

/-- Erasing key `k` makes `get?` at `k` return nothing. -/
lemma PDict.get?_erase_self (d : PDict) (k : String) :
    (d.erase k).get? k = Option.none := by
  have h : (d.erase k).find? (fun p => p.1 = k) = Option.none := by
    rw [List.find?_eq_none]
    intro x hx
    unfold PDict.erase at hx
    rw [List.mem_filter] at hx
    simpa using hx.2
  unfold PDict.get?
  rw [h]
  rfl

/-- Erasing key `k` removes it. -/
lemma PDict.hasKey_erase_self (d : PDict) (k : String) :
    (d.erase k).hasKey k = false := by
  simp [PDict.erase, PDict.hasKey, List.any_eq_true, List.mem_filter]

/-- Key membership agrees with lookup success. -/
lemma PDict.hasKey_eq_isSome (d : PDict) (k : String) :
    d.hasKey k = (d.get? k).isSome := by
  induction d with
  | nil => rfl
  | cons a t ih =>
    by_cases ha : a.1 = k
    · simp [PDict.hasKey, PDict.get?, ha]
    · have h1 : PDict.hasKey (a :: t) k = PDict.hasKey t k := by
        simp [PDict.hasKey, ha]
      have h2 : PDict.get? (a :: t) k = PDict.get? t k := by
        unfold PDict.get?
        rw [List.find?_cons_of_neg _ (by simp [ha])]
      rw [h1, h2, ih]

/-- Looking up key `k` right after `d[k] = f` finds `f`. -/
lemma idMapGet_insert_self (l : List (PValue × Feature)) (k : PValue) (f : Feature) :
    idMapGet (idMapInsert l k f) k = Option.some f := by
  unfold idMapGet idMapInsert
  rw [assoc_find?_update_self]
  rfl

/-- `d[k] = f` leaves lookups of other keys unchanged. -/
lemma idMapGet_insert_ne (l : List (PValue × Feature)) (k k2 : PValue) (f : Feature)
    (h : k2 ≠ k) :
    idMapGet (idMapInsert l k f) k2 = idMapGet l k2 := by
  unfold idMapGet idMapInsert
  rw [assoc_find?_update_ne _ _ _ _ h]

/-- The id index after `add_feature`: updated at `f.id` exactly when the
feature has an external id. -/
lemma add_feature_id_to_feature (m : FeatureMap) (f : Feature) :
    (m.add_feature f).id_to_feature =
      if f.id ≠ PValue.none then idMapInsert m.id_to_feature f.id f
      else m.id_to_feature := by
  unfold FeatureMap.add_feature
  by_cases h1 : f.id ≠ PValue.none <;> by_cases h2 : f.has_property "class" = true <;>
    by_cases h3 : f.models ≠ PValue.none <;> simp [h1, h2, h3]

/-- The layer loop computes the match list of the first layer whose match
list has exactly one element, and otherwise the last layer's. -/
lemma layerLoop_eq_firstUniqueOrLast (cc : Geom → Geom → Bool) (m : FeatureMap)
    (feats : List Feature) :
    ∀ (layers : List PValue) (acc : List Feature), layers ≠ [] →
      layerLoop cc m feats layers acc =
        firstUniqueOrLast (layers.map (fun ly =>
          includedFeatures cc (m.model_to_features.getList ly) feats))
  | [], _, h => absurd rfl h
  | [l], acc, _ => by
      simp only [layerLoop, List.map, firstUniqueOrLast]
      split <;> rfl
  | l :: l2 :: rest, acc, _ => by
      simp only [layerLoop, List.map, firstUniqueOrLast]
      split
      · rfl
      · exact layerLoop_eq_firstUniqueOrLast cc m feats (l2 :: rest)
          (includedFeatures cc (m.model_to_features.getList l) feats) (by simp)

/-- With a non-empty layer list the returned feature list is exactly what
the layer loop computes (the diagnostics block never changes it). -/
lemma find_features_features_eq (cc : Geom → Geom → Bool) (m : FeatureMap)
    (aid : PValue) (layers : List PValue) (h : layers ≠ []) :
    (FeatureMap.find_features_by_anatomical_id cc m aid layers).features
      = layerLoop cc m (m.model_to_features.getList aid) layers [] := by
  simp only [FeatureMap.find_features_by_anatomical_id]
  rw [if_neg (fun hl => h (List.length_eq_zero.mp hl))]
  split
  · split <;> rfl
  · rfl

/-- Counterexample to claim C1 as stated: with one candidate for `X` whose
centroid lies in two containers of layer `L`, the match list the claim
describes (candidates contained in some container) is the singleton `[fX]`,
so the claimed resolution returns `[fX]`; the code instead collects one
entry per (container, candidate) pair, giving `[fX, fX]`, does not
short-circuit, and returns `[fX, fX]`. -/
theorem claim_C1_counterexample :
    claimResolve cc0 m0 (PValue.str "X") [PValue.str "L"] = [fX]
  ∧ (FeatureMap.find_features_by_anatomical_id cc0 m0
       (PValue.str "X") [PValue.str "L"]).features = [fX, fX]
  ∧ ([fX] : List Feature) ≠ [fX, fX] := by
  refine ⟨by decide, by decide, by decide⟩

/-- Claim C1 as amended: with a non-empty layer list the resolver iterates
the layers in order; each layer's match list holds one entry per
(container, candidate) pair whose containment test succeeds, containers
outermost; the result is the match list of the first layer whose match list
has exactly one element, else the last layer's. -/
theorem claim_C1_amended (cc : Geom → Geom → Bool) (m : FeatureMap) (aid : PValue)
    (layers : List PValue) (h : layers ≠ []) :
    (FeatureMap.find_features_by_anatomical_id cc m aid layers).features
      = firstUniqueOrLast (layers.map (fun ly =>
          includedFeatures cc (m.model_to_features.getList ly)
            (m.model_to_features.getList aid))) := by
  rw [find_features_features_eq cc m aid layers h]
  exact layerLoop_eq_firstUniqueOrLast cc m (m.model_to_features.getList aid)
    layers [] h

/-- Witness for claim C1 (amended) at concrete inputs. -/
theorem claim_C1_witness :
    ([PValue.str "L"] : List PValue) ≠ []
  ∧ (FeatureMap.find_features_by_anatomical_id cc0 m0
       (PValue.str "X") [PValue.str "L"]).features = [fX, fX] := by
  refine ⟨by decide, ?_⟩
  exact (claim_C1_amended cc0 m0 (PValue.str "X") [PValue.str "L"]
    (by decide)).trans (by decide)

/-- Claim C2: with an empty candidate-layer list,
`find_features_by_anatomical_id` returns exactly the byModel entry for the
identifier (the empty list when absent), with no geometric filtering. -/
theorem claim_C2 (cc : Geom → Geom → Bool) (m : FeatureMap) (aid : PValue) :
    (FeatureMap.find_features_by_anatomical_id cc m aid []).features
      = m.model_to_features.getList aid := by
  unfold FeatureMap.find_features_by_anatomical_id
  simp only [List.length_nil, reduceIte]
  split
  · split <;> rfl
  · rfl

/-- Claim C3: an empty result is returned non-fatally; the first call with a
given (identifier, layers) pair and empty result emits exactly one
diagnostic and records the pair; any call whose pair is already recorded
emits none; a non-empty result emits none; recorded pairs persist. -/
theorem claim_C3 (cc : Geom → Geom → Bool) (m : FeatureMap) (aid : PValue)
    (layers : List PValue) :
    ((FeatureMap.find_features_by_anatomical_id cc m aid layers).features = [] →
       ¬((aid, layers) ∈ m.unknown_anatomy) →
       ((FeatureMap.find_features_by_anatomical_id cc m aid layers).diagnostics = 1
        ∧ (aid, layers) ∈
            (FeatureMap.find_features_by_anatomical_id cc m aid layers).map.unknown_anatomy))
  ∧ ((aid, layers) ∈ m.unknown_anatomy →
       (FeatureMap.find_features_by_anatomical_id cc m aid layers).diagnostics = 0)
  ∧ ((FeatureMap.find_features_by_anatomical_id cc m aid layers).features ≠ [] →
       (FeatureMap.find_features_by_anatomical_id cc m aid layers).diagnostics = 0)
  ∧ (∀ p, p ∈ m.unknown_anatomy →
       p ∈ (FeatureMap.find_features_by_anatomical_id cc m aid layers).map.unknown_anatomy) := by
  unfold FeatureMap.find_features_by_anatomical_id
  generalize (if layers.length = 0 then m.model_to_features.getList aid
      else layerLoop cc m (m.model_to_features.getList aid) layers []) = af
  by_cases h0 : af.length = 0
  · rw [if_pos h0]
    by_cases hm : (aid, layers) ∈ m.unknown_anatomy
    · rw [if_pos hm]
      exact ⟨fun _ hnm => absurd hm hnm, fun _ => rfl, fun _ => rfl, fun p hp => hp⟩
    · rw [if_neg hm]
      refine ⟨fun _ _ => ⟨rfl, ?_⟩, fun hmem => absurd hmem hm,
        fun hne => absurd (List.length_eq_zero.mp h0) hne,
        fun p hp => List.mem_append_left _ hp⟩
      exact List.mem_append_right _ (by simp)
  · rw [if_neg h0]
    exact ⟨fun hfe _ => absurd (List.length_eq_zero.mpr hfe) h0, fun _ => rfl,
      fun _ => rfl, fun p hp => hp⟩

/-- Witness for claim C3 at concrete inputs: resolving an unknown
identifier against the empty index emits one diagnostic the first time and
none the second time. -/
theorem claim_C3_witness :
    (FeatureMap.find_features_by_anatomical_id cc0 FeatureMap.empty
        (PValue.str "Y") []).features = []
  ∧ ¬((PValue.str "Y", ([] : List PValue)) ∈ FeatureMap.empty.unknown_anatomy)
  ∧ (FeatureMap.find_features_by_anatomical_id cc0 FeatureMap.empty
        (PValue.str "Y") []).diagnostics = 1
  ∧ (FeatureMap.find_features_by_anatomical_id cc0
        (FeatureMap.find_features_by_anatomical_id cc0 FeatureMap.empty
          (PValue.str "Y") []).map (PValue.str "Y") []).diagnostics = 0 := by
  refine ⟨by rfl, by simp [FeatureMap.empty], ?_, ?_⟩
  · exact ((claim_C3 cc0 FeatureMap.empty (PValue.str "Y") []).1 (by rfl)
      (by simp [FeatureMap.empty])).1
  · exact (claim_C3 cc0 (FeatureMap.find_features_by_anatomical_id cc0
      FeatureMap.empty (PValue.str "Y") []).map (PValue.str "Y") []).2.1 (by decide)

/-- Counterexample to claim C4 as stated: `set_property` with the empty
string stores the empty string — the key remains present with an empty
marker rather than being deleted (only `None` triggers deletion). -/
theorem claim_C4_counterexample :
    ((fX.set_property "label" (PValue.str "")).properties.hasKey "label" = true)
  ∧ ((fX.set_property "label" (PValue.str "")).properties.get? "label"
       = Option.some (PValue.str "")) := by
  constructor <;> rfl

/-- Claim C4 as amended: `set_property(k, None)` is exactly deletion of `k`,
after which the key is gone; `set_property(k, '')` stores the empty string,
so the key remains present with value `''`; in both cases a subsequent
`has_property(k)` returns false. -/
theorem claim_C4_amended (f : Feature) (k : String) :
    (f.set_property k PValue.none = f.del_property k
       ∧ (f.set_property k PValue.none).properties.hasKey k = false
       ∧ (f.set_property k PValue.none).has_property k = false)
  ∧ ((f.set_property k (PValue.str "")).properties.get? k
         = Option.some (PValue.str "")
       ∧ (f.set_property k (PValue.str "")).properties.hasKey k = true
       ∧ (f.set_property k (PValue.str "")).has_property k = false) := by
  have hnone : f.set_property k PValue.none = f.del_property k := by
    unfold Feature.set_property
    rw [if_pos rfl]
  have hstr : (f.set_property k (PValue.str "")).properties
      = f.properties.insert k (PValue.str "") := by
    unfold Feature.set_property
    rw [if_neg (by simp)]
  refine ⟨⟨hnone, ?_, ?_⟩, ?_, ?_, ?_⟩
  · rw [hnone]
    exact PDict.hasKey_erase_self f.properties k
  · rw [hnone]
    unfold Feature.has_property Feature.del_property PDict.getD
    simp [PDict.get?_erase_self]
  · rw [hstr]
    exact PDict.get?_insert_self f.properties k (PValue.str "")
  · rw [PDict.hasKey_eq_isSome, hstr, PDict.get?_insert_self]
    rfl
  · unfold Feature.has_property PDict.getD
    rw [hstr, PDict.get?_insert_self]
    simp

/-- Claim C5: `FeatureMap.features` returns the singleton byId entry when
the identifier is an id key, and otherwise the byClass list (empty when
absent); a Feature registered with a non-empty external id resolves to
itself, also after further registrations under other ids. -/
theorem claim_C5 (m : FeatureMap) (id : PValue) (s : String) (f : Feature) :
    (∀ fx, idMapGet m.id_to_feature id = Option.some fx → m.features id = [fx])
  ∧ (idMapGet m.id_to_feature id = Option.none →
       m.features id = m.class_to_features.getList id)
  ∧ (f.id = PValue.str s → s ≠ "" →
       ((m.add_feature f).features f.id = [f]
        ∧ ∀ g, g.id ≠ f.id → ((m.add_feature f).add_feature g).features f.id = [f])) := by
  refine ⟨?_, ?_, ?_⟩
  · intro fx h
    unfold FeatureMap.features
    rw [h]
  · intro h
    unfold FeatureMap.features
    rw [h]
  · intro hid _hs
    have hne : f.id ≠ PValue.none := by rw [hid]; intro h; cases h
    have hbase : idMapGet (m.add_feature f).id_to_feature f.id = Option.some f := by
      rw [add_feature_id_to_feature, if_pos hne, idMapGet_insert_self]
    constructor
    · unfold FeatureMap.features
      rw [hbase]
    · intro g hg
      have hg2 : idMapGet ((m.add_feature f).add_feature g).id_to_feature f.id
          = Option.some f := by
        rw [add_feature_id_to_feature]
        by_cases hgid : g.id ≠ PValue.none
        · rw [if_pos hgid, idMapGet_insert_ne _ _ _ _ (fun h => hg h.symm)]
          exact hbase
        · rw [if_neg hgid]
          exact hbase
      unfold FeatureMap.features
      rw [hg2]

/-- Witness for claim C5 at a concrete input: registering `fID` (external
id `a`) into the empty index makes `features` resolve it to itself. -/
theorem claim_C5_witness :
    fID.id = PValue.str "a" ∧ "a" ≠ ""
      ∧ (FeatureMap.empty.add_feature fID).features fID.id = [fID] := by
  refine ⟨by rfl, by decide, ?_⟩
  exact ((claim_C5 FeatureMap.empty (PValue.str "a") "a" fID).2.2 (by rfl) (by decide)).1

/-- Counterexample to claim C6 as stated: a dropped (invisible) leaf still
has its `tile-layer` property defaulted — the defaulting happens before the
drop checks, not only for shapes passing them. -/
theorem claim_C6_counterexample :
    (processShapeList (fun p => p) agNone
        [plainLeaf 9, STree.leaf invisibleLeaf] 0).features = []
  ∧ (processShapeList (fun p => p) agNone
        [plainLeaf 9, STree.leaf invisibleLeaf] 0).shapes
      = [plainLeaf 9, STree.leaf ⟨⟨5, "Polygon"⟩,
           [("invisible", PValue.bool true), ("tile-layer", PValue.str "features")]⟩]
  ∧ invisibleLeaf.properties.hasKey "tile-layer" = false
  ∧ dropCondition (leafProperties (fun p => p) invisibleLeaf.properties) = true := by
  refine ⟨?_, ?_, by decide, by decide⟩ <;>
    simp [processShapeList, processItems, plainLeaf, invisibleLeaf, leafProperties,
      dropCondition, PDict.hasKey, PDict.getD, PDict.get?, PDict.insert,
      PValue.truthy, FEATURES_TILE_LAYER]

/-- Claim C6 as amended: every processed leaf is validated and has its
`tile-layer` defaulted when absent; when the resulting properties satisfy a
drop condition (error, invisible, path, or truthy exclude) the leaf is
dropped — no Feature is created, processing continues; otherwise a Feature
built from its geometry and updated properties is appended and the id
counter advances. -/
theorem claim_C6_amended (cm : PDict → PDict)
    (ag : List Feature → Nat → Option Feature × Nat) (s : PShape)
    (rest : List STree) (st : Nat) :
    (dropCondition (leafProperties cm s.properties) = true →
       processItems cm ag (STree.leaf s :: rest) st =
         ⟨(processItems cm ag rest st).features,
          STree.leaf ⟨s.geometry, leafProperties cm s.properties⟩
            :: (processItems cm ag rest st).shapes,
          (processItems cm ag rest st).counter,
          (processItems cm ag rest st).offers⟩)
  ∧ (dropCondition (leafProperties cm s.properties) = false →
       processItems cm ag (STree.leaf s :: rest) st =
         ⟨Feature.mkFeature st s.geometry (leafProperties cm s.properties) false
            :: (processItems cm ag rest (st + 1)).features,
          STree.leaf ⟨s.geometry, leafProperties cm s.properties⟩
            :: (processItems cm ag rest (st + 1)).shapes,
          (processItems cm ag rest (st + 1)).counter,
          (processItems cm ag rest (st + 1)).offers⟩) := by
  constructor <;> intro h <;> simp [processItems, h, new_feature]

/-- Witness for claim C6 (amended) at a concrete input: the invisible leaf
is dropped and yields no Feature. -/
theorem claim_C6_witness :
    dropCondition (leafProperties (fun p => p) invisibleLeaf.properties) = true
  ∧ (processItems (fun p => p) agNone [STree.leaf invisibleLeaf] 0).features = [] := by
  refine ⟨by decide, ?_⟩
  have h := (claim_C6_amended (fun p => p) agNone invisibleLeaf [] 0).1 (by decide)
  rw [h]
  simp [processItems]

/-- Counterexample to claim C7 as stated: three plain leaf shapes (all
passing every check) produce only two Features — the first list element is
skipped — so `[s1, s2, s3]` does not produce `[f1, f2, f3]`. -/
theorem claim_C7_counterexample :
    (processShapeList (fun p => p) agNone
        [plainLeaf 1, plainLeaf 2, plainLeaf 3] 0).features.length = 2
  ∧ ((processShapeList (fun p => p) agNone
        [plainLeaf 1, plainLeaf 2, plainLeaf 3] 0).features.map
          (fun f => f.geometry.gid)) = [2, 3]
  ∧ ((processShapeList (fun p => p) agNone
        [plainLeaf 1, plainLeaf 2, plainLeaf 3] 0).features.map
          Feature.feature_id) = [0, 1] := by
  refine ⟨?_, ?_, ?_⟩ <;>
    simp [processShapeList, processItems, plainLeaf, leafProperties, dropCondition,
      PDict.hasKey, PDict.getD, PDict.get?, PDict.insert, PValue.truthy,
      new_feature, agNone, Feature.mkFeature]

/-- Claim C7 as amended: the leaves from index 1 onward of a group-free
shape list, when they all pass the drop checks, produce one Feature each,
in exactly the input traversal order, with sequential numeric ids assigned
in that order. -/
theorem claim_C7_amended (cm : PDict → PDict)
    (ag : List Feature → Nat → Option Feature × Nat) (s0 : STree)
    (leaves : List PShape) (st : Nat)
    (h : ∀ s ∈ leaves, dropCondition (leafProperties cm s.properties) = false) :
    (processShapeList cm ag (s0 :: leaves.map STree.leaf) st).features
      = expectedLeafFeatures cm leaves st := by
  have key : ∀ (ls : List PShape), (∀ st2,
      (∀ s ∈ ls, dropCondition (leafProperties cm s.properties) = false) →
      (processItems cm ag (ls.map STree.leaf) st2).features
        = expectedLeafFeatures cm ls st2) := by
    intro ls
    induction ls with
    | nil => intro st2 _; simp [processItems, expectedLeafFeatures]
    | cons s rest ih =>
      intro st2 hall
      have hs := hall s (by simp)
      have htail := ih (st2 + 1) (fun x hx => hall x (List.mem_cons_of_mem s hx))
      simp [processItems, hs, new_feature, expectedLeafFeatures, htail]
  have hmain : (processShapeList cm ag (s0 :: leaves.map STree.leaf) st).features
      = (processItems cm ag (leaves.map STree.leaf) st).features := by
    simp [processShapeList]
  rw [hmain]
  exact key leaves st h

/-- Witness for claim C7 (amended) at a concrete input: two passing leaves
after the skipped head produce two Features with ids 0 and 1 in order. -/
theorem claim_C7_witness :
    (∀ s ∈ [(⟨⟨1, "Polygon"⟩, []⟩ : PShape), ⟨⟨2, "Polygon"⟩, []⟩],
        dropCondition (leafProperties (fun p => p) s.properties) = false)
  ∧ (processShapeList (fun p => p) agNone
        (plainLeaf 9 :: ([(⟨⟨1, "Polygon"⟩, []⟩ : PShape), ⟨⟨2, "Polygon"⟩, []⟩]).map
          STree.leaf) 0).features
      = expectedLeafFeatures (fun p => p)
          [⟨⟨1, "Polygon"⟩, []⟩, ⟨⟨2, "Polygon"⟩, []⟩] 0 := by
  refine ⟨by decide, ?_⟩
  exact claim_C7_amended (fun p => p) agNone (plainLeaf 9)
    [⟨⟨1, "Polygon"⟩, []⟩, ⟨⟨2, "Polygon"⟩, []⟩] 0 (by decide)

/-- Counterexample to claim C8 as stated: the group-aggregation step is
offered the child list even when it is empty — the empty list appears among
the offers, and an aggregation function that differs from `agNone` only on
the empty list observably changes the output. -/
theorem claim_C8_counterexample :
    ([] : List Feature) ∈ (processShapeList (fun p => p) agNone groupTree 0).offers
  ∧ (processShapeList (fun p => p) agNone groupTree 0).features = []
  ∧ (processShapeList (fun p => p) agJunk groupTree 0).features
      = [Feature.mkFeature 0 ⟨99, "Group"⟩ [] true] := by
  refine ⟨?_, ?_, ?_⟩ <;>
    simp [processShapeList, processItems, groupTree, plainLeaf, agNone, agJunk]

/-- Claim C8 as amended: the aggregation step is offered every group's
child list, also when empty; provided it synthesizes nothing for an empty
list (the spec-modelled behavior of `add_features`), a Group whose reduced
child list is empty contributes no Feature to the output. -/
theorem claim_C8_amended (cm : PDict → PDict)
    (ag : List Feature → Nat → Option Feature × Nat)
    (children rest : List STree) (st : Nat)
    (hag : ∀ s, ag [] s = (Option.none, s))
    (hempty : (processShapeList cm ag children st).features = []) :
    (processItems cm ag (STree.node children :: rest) st).features
      = (processItems cm ag rest
          (processShapeList cm ag children st).counter).features := by
  simp only [processItems]
  rw [hempty, hag]

/-- Witness for claim C8 (amended) at a concrete input: the group whose
children all vanish contributes nothing. -/
theorem claim_C8_witness :
    (∀ s, agNone [] s = (Option.none, s))
  ∧ (processShapeList (fun p => p) agNone [plainLeaf 8] 0).features = []
  ∧ (processItems (fun p => p) agNone [STree.node [plainLeaf 8]] 0).features = [] := by
  refine ⟨fun s => rfl, by simp [processShapeList, processItems], ?_⟩
  have h := claim_C8_amended (fun p => p) agNone [plainLeaf 8] [] 0
    (fun s => rfl) (by simp [processShapeList, processItems])
  rw [h]
  simp [processItems]

/-- Claim C9: the element at index 0 of a processed shape list is never
examined — the produced features, final counter and aggregation offers are
invariant under replacing it — and it is passed through unmodified; the
same holds inside a nested group list. -/
theorem claim_C9 (cm : PDict → PDict) (ag : List Feature → Nat → Option Feature × Nat)
    (s0 t0 : STree) (rest outer : List STree) (st : Nat) :
    ((processShapeList cm ag (s0 :: rest) st).features
        = (processShapeList cm ag (t0 :: rest) st).features)
  ∧ ((processShapeList cm ag (s0 :: rest) st).counter
        = (processShapeList cm ag (t0 :: rest) st).counter)
  ∧ ((processShapeList cm ag (s0 :: rest) st).offers
        = (processShapeList cm ag (t0 :: rest) st).offers)
  ∧ ((processShapeList cm ag (s0 :: rest) st).shapes
        = s0 :: (processItems cm ag rest st).shapes)
  ∧ ((processItems cm ag (STree.node (s0 :: rest) :: outer) st).features
        = (processItems cm ag (STree.node (t0 :: rest) :: outer) st).features) := by
  refine ⟨?_, ?_, ?_, ?_, ?_⟩
  · simp [processShapeList]
  · simp [processShapeList]
  · simp [processShapeList]
  · simp [processShapeList]
  · simp only [processItems, processShapeList]
    cases (ag (processItems cm ag rest st).features (processItems cm ag rest st).counter).1 <;>
      rfl

/-- Claim C10: a candidate appears in a layer's match list once per
container containing its centroid (times its multiplicity among the
candidates); concretely, the single candidate for `X` lying in the two
containers of layer `L` gives a match list `[fX, fX]` of length 2, the
unique-match short-circuit does not fire (a following empty layer `M`
yields the final result), and the returned list can hold duplicates. -/
theorem claim_C10 :
    (∀ (cc : Geom → Geom → Bool) (lfs feats : List Feature) (f : Feature),
       (includedFeatures cc lfs feats).count f
         = lfs.countP (fun lf => cc lf.geometry f.geometry) * feats.count f)
  ∧ (FeatureMap.find_features_by_anatomical_id cc0 m0
       (PValue.str "X") [PValue.str "L"]).features = [fX, fX]
  ∧ (FeatureMap.find_features_by_anatomical_id cc0 m0
       (PValue.str "X") [PValue.str "L", PValue.str "M"]).features = []
  ∧ ¬ (FeatureMap.find_features_by_anatomical_id cc0 m0
       (PValue.str "X") [PValue.str "L"]).features.Nodup := by
  refine ⟨?_, by decide, by decide, by decide⟩
  intro cc lfs feats f
  induction lfs with
  | nil => simp [includedFeatures]
  | cons lf rest ih =>
    rw [includedFeatures, List.count_append, ih, List.countP_cons, Nat.add_mul]
    by_cases hc : cc lf.geometry f.geometry = true
    · have hcf : List.count f (List.filter (fun x => cc lf.geometry x.geometry) feats)
          = List.count f feats := List.count_filter hc
      rw [hcf, if_pos hc, Nat.one_mul, Nat.add_comm]
    · have hz : (feats.filter (fun x => cc lf.geometry x.geometry)).count f = 0 := by
        rw [List.count_eq_zero]
        intro hmem
        rw [List.mem_filter] at hmem
        exact hc hmem.2
      rw [hz, if_neg hc, Nat.zero_mul, Nat.add_zero, Nat.zero_add]

end FlatmapMaker
